import Mathlib

/-!
Verification of the AINE-DRL core subsystem: the circular batch trajectory
buffer (`aine_drl/trajectory/batch_trajectory.py`), its PPO specialization
(`aine_drl/agent/ppo/ppo_trajectory.py`), the agent control loop
(`aine_drl/agent/agent.py`) and the action-layer forward passes
(`aine_drl/network.py`), shallowly embedded in Lean.

Tensors and per-step payloads are represented by an abstract type `τ`
(numeric tensor entries, where arithmetic matters, by `ℚ`); Python `assert`
failures and raised errors are represented by `Except` with the error
taxonomy named in the spec (§7).
-/

/-- Error taxonomy of the spec (§7): a Python `assert` failure on a batch-size
or buffer-fullness contract is `ContractViolation`; the `ValueError` raised on
an unrecognized behavior mode is `InvalidState`; inconsistent branch sizes at
construction are `ShapeMismatch`. -/
inductive AineError where
  | ContractViolation
  | InvalidState
  | ShapeMismatch
deriving DecidableEq, Repr

/-- One environment step as stored by `BatchTrajectory`
(`aine_drl.drl_util.Experience`): exactly the five fields that
`BatchTrajectory.add` reads (`state`, `action`, `reward`, `terminated`,
`next_state`). Each field holds an abstract tensor value of type `τ`. -/
structure Experience (τ : Type) where
  state : τ
  action : τ
  reward : τ
  terminated : τ
  next_state : τ
deriving DecidableEq, Repr

/-- State of `BatchTrajectory` (`batch_trajectory.py`): capacity
`max_num_exp`, batch width `num_envs`, the running `_count` (here `count`),
the cursor `recent_idx` (a Python int, `-1` after reset), the four parallel
slot arrays and the per-environment most-recent-next-state cache. Empty
slots are `none`. -/
structure BatchTrajectory (τ : Type) where
  num_envs : Nat
  max_num_exp : Nat
  count : Nat
  recent_idx : Int
  states : List (Option τ)
  actions : List (Option τ)
  rewards : List (Option τ)
  terminateds : List (Option τ)
  next_state_buffer : List (Option τ)
deriving DecidableEq, Repr

namespace BatchTrajectory

/-- `BatchTrajectory.reset`: zero the count, set the cursor to `-1`, refill
every slot array with empty placeholders. -/
def reset (t : BatchTrajectory τ) : BatchTrajectory τ :=
  { t with
    count := 0
    recent_idx := -1
    states := List.replicate t.max_num_exp none
    actions := List.replicate t.max_num_exp none
    rewards := List.replicate t.max_num_exp none
    terminateds := List.replicate t.max_num_exp none
    next_state_buffer := List.replicate t.num_envs none }

/-- `BatchTrajectory.__init__(max_num_exp, num_envs)`: store the sizes and
call `reset`. The constructor's `assert max_num_exp > 0 and num_envs > 0` is
carried as a hypothesis of the theorems that need it. -/
def init (τ : Type) (max_num_exp num_envs : Nat) : BatchTrajectory τ :=
  reset { num_envs := num_envs, max_num_exp := max_num_exp, count := 0,
          recent_idx := -1, states := [], actions := [], rewards := [],
          terminateds := [], next_state_buffer := [] }

/-- One iteration of the loop body of `BatchTrajectory.add`: `i` is the
position of `ex` inside the batch (Python `enumerate`). The cursor advances
by `(recent_idx + 1) % max_num_exp` (Python `%` on ints is `Int.emod` for a
positive modulus), the count saturates at the capacity, and the four slot
arrays plus the next-state cache are written in place. -/
def addOne (t : BatchTrajectory τ) (i : Nat) (ex : Experience τ) : BatchTrajectory τ :=
  let idx : Int := (t.recent_idx + 1).emod (t.max_num_exp : Int)
  { t with
    recent_idx := idx
    count := min (t.count + 1) t.max_num_exp
    states := t.states.set idx.toNat (some ex.state)
    actions := t.actions.set idx.toNat (some ex.action)
    rewards := t.rewards.set idx.toNat (some ex.reward)
    terminateds := t.terminateds.set idx.toNat (some ex.terminated)
    next_state_buffer := t.next_state_buffer.set i (some ex.next_state) }

/-- `BatchTrajectory.add(experiences)`: the leading
`assert len(experiences) == self.num_envs` is the `ContractViolation`
branch (spec §7); then the enumerate-loop writes each element in order. -/
def add (t : BatchTrajectory τ) (experiences : List (Experience τ)) :
    Except AineError (BatchTrajectory τ) :=
  if experiences.length = t.num_envs then
    .ok (experiences.enum.foldl (fun s p => addOne s p.1 p.2) t)
  else
    .error .ContractViolation

/-- A whole sequence of `add` calls, stopping at the first failure. -/
def addAll (t : BatchTrajectory τ) : List (List (Experience τ)) →
    Except AineError (BatchTrajectory τ)
  | [] => .ok t
  | b :: bs =>
    match t.add b with
    | .ok t' => addAll t' bs
    | .error e => .error e

end BatchTrajectory

section CircularLemmas

variable {τ : Type}

lemma emod_add_left_emod (r k c : Int) : (r.emod c + k).emod c = (r + k).emod c := by
  show (r % c + k) % c = (r + k) % c
  conv_rhs => rw [Int.add_emod]
  rw [Int.add_emod (r % c) k, Int.emod_emod_of_dvd _ (dvd_refl c)]

/-- Folding the loop body of `add` over a flat list of writes: the count
saturates at capacity, the cursor advances by the number of writes modulo
the capacity, and the sizes and array lengths are unchanged. -/
lemma foldl_addOne_spec (l : List (Nat × Experience τ)) (t : BatchTrajectory τ)
    (hct : t.count ≤ t.max_num_exp) :
    let t' := l.foldl (fun s p => BatchTrajectory.addOne s p.1 p.2) t
    t'.num_envs = t.num_envs ∧ t'.max_num_exp = t.max_num_exp ∧
    t'.count = min (t.count + l.length) t.max_num_exp ∧
    t'.recent_idx = (if l.length = 0 then t.recent_idx
      else (t.recent_idx + l.length).emod (t.max_num_exp : Int)) ∧
    t'.states.length = t.states.length ∧
    t'.actions.length = t.actions.length ∧
    t'.rewards.length = t.rewards.length ∧
    t'.terminateds.length = t.terminateds.length ∧
    t'.next_state_buffer.length = t.next_state_buffer.length := by
  induction l generalizing t with
  | nil => simp [Nat.min_eq_left hct]
  | cons p l ih =>
    obtain ⟨h1, h2, h3, h4, h5, h6, h7, h8, h9⟩ :=
      ih (t.addOne p.1 p.2) (by simp [BatchTrajectory.addOne])
    refine ⟨?_, ?_, ?_, ?_, ?_, ?_, ?_, ?_, ?_⟩ <;>
      simp only [List.foldl_cons] at *
    · simpa [BatchTrajectory.addOne] using h1
    · simpa [BatchTrajectory.addOne] using h2
    · rw [h3]
      simp only [BatchTrajectory.addOne, List.length_cons]
      omega
    · rw [h4]
      by_cases hl : l.length = 0
      · simp [hl, BatchTrajectory.addOne]
      · simp only [hl, if_false, List.length_cons, if_neg (by omega : ¬l.length + 1 = 0)]
        simp only [BatchTrajectory.addOne]
        rw [emod_add_left_emod]
        push_cast
        ring_nf
    · simpa [BatchTrajectory.addOne] using h5
    · simpa [BatchTrajectory.addOne] using h6
    · simpa [BatchTrajectory.addOne] using h7
    · simpa [BatchTrajectory.addOne] using h8
    · simpa [BatchTrajectory.addOne] using h9

/-- A single well-sized `add` call succeeds and its effect on the count and
cursor is the batch-width advance. -/
lemma add_ok_spec (t : BatchTrajectory τ) (b : List (Experience τ))
    (hb : b.length = t.num_envs) (hct : t.count ≤ t.max_num_exp) :
    ∃ t', t.add b = .ok t' ∧
      t'.num_envs = t.num_envs ∧ t'.max_num_exp = t.max_num_exp ∧
      t'.count = min (t.count + t.num_envs) t.max_num_exp ∧
      t'.recent_idx = (if t.num_envs = 0 then t.recent_idx
        else (t.recent_idx + t.num_envs).emod (t.max_num_exp : Int)) := by
  refine ⟨b.enum.foldl (fun s p => BatchTrajectory.addOne s p.1 p.2) t, ?_, ?_⟩
  · simp [BatchTrajectory.add, hb]
  · obtain ⟨h1, h2, h3, h4, _⟩ := foldl_addOne_spec b.enum t hct
    refine ⟨h1, h2, ?_, ?_⟩
    · rw [h3, List.enum_length, hb]
    · rw [h4, List.enum_length, hb]

/-- Effect of a whole sequence of well-sized `add` calls on count and
cursor. -/
lemma addAll_spec (bs : List (List (Experience τ))) (t : BatchTrajectory τ)
    (hb : ∀ b ∈ bs, b.length = t.num_envs) (hct : t.count ≤ t.max_num_exp) :
    ∃ t', t.addAll bs = .ok t' ∧
      t'.num_envs = t.num_envs ∧ t'.max_num_exp = t.max_num_exp ∧
      t'.count = min (t.count + bs.length * t.num_envs) t.max_num_exp ∧
      t'.recent_idx = (if bs.length * t.num_envs = 0 then t.recent_idx
        else (t.recent_idx + bs.length * t.num_envs).emod (t.max_num_exp : Int)) := by
  induction bs generalizing t with
  | nil => exact ⟨t, rfl, rfl, rfl, by simp [Nat.min_eq_left hct], by simp⟩
  | cons b bs ih =>
    obtain ⟨t1, hok, he, hm, hc, hr⟩ := add_ok_spec t b (hb b (by simp)) hct
    obtain ⟨t', hok', he', hm', hc', hr'⟩ := ih t1 (by
      intro x hx
      rw [he]
      exact hb x (by simp [hx])) (by rw [hc, hm]; omega)
    refine ⟨t', ?_, by rw [he', he], by rw [hm', hm], ?_, ?_⟩
    · simp only [BatchTrajectory.addAll, hok]
      exact hok'
    · rw [hc', hc, hm, he, List.length_cons]
      have hmul : (bs.length + 1) * t.num_envs = bs.length * t.num_envs + t.num_envs := by
        ring
      rw [hmul]
      omega
    · rw [hr', he, hm, hr]
      by_cases h0 : t.num_envs = 0
      · simp [h0]
      · have hne : ¬(b :: bs).length * t.num_envs = 0 := by
          simp only [List.length_cons]
          intro h
          rcases Nat.mul_eq_zero.mp h with h | h
          · omega
          · exact h0 h
        simp only [if_neg h0, hne, if_false]
        by_cases hbs : bs.length * t.num_envs = 0
        · have hb0 : bs.length = 0 := by
            rcases Nat.mul_eq_zero.mp hbs with h | h
            · exact h
            · exact absurd h h0
          simp [hbs, hb0]
        · simp only [hbs, if_false]
          rw [emod_add_left_emod]
          congr 1
          simp only [List.length_cons]
          push_cast
          ring

end CircularLemmas

/-- C1: for every sequence of well-sized `add` calls on a freshly constructed
`BatchTrajectory`, the final count is `min(total_writes, capacity)`, the
cursor is `-1` when nothing was written and otherwise points at the slot of
the most recent write, `(total_writes - 1) mod capacity` — the image of
advancing `(cursor+1) mod capacity` once per element — and once the buffer is
full a further well-sized `add` succeeds (silently overwriting) without
changing the count. -/
theorem batchTrajectory_add_circular_invariant (τ : Type) (cap envs : Nat)
    (hcap : 0 < cap) (henvs : 0 < envs)
    (bs : List (List (Experience τ))) (hb : ∀ b ∈ bs, b.length = envs) :
    ∃ t', (BatchTrajectory.init τ cap envs).addAll bs = .ok t' ∧
      t'.count = min (bs.length * envs) cap ∧
      t'.recent_idx = (if bs.length = 0 then (-1 : Int)
        else ((bs.length * envs : Int) - 1).emod (cap : Int)) ∧
      ∀ b2 : List (Experience τ), b2.length = envs → t'.count = cap →
        ∃ t'', t'.add b2 = .ok t'' ∧ t''.count = cap := by
  have hinit : (BatchTrajectory.init τ cap envs).num_envs = envs := rfl
  obtain ⟨t', hok, he, hm, hc, hr⟩ :=
    addAll_spec bs (BatchTrajectory.init τ cap envs) (by simpa [hinit] using hb)
      (by simp [BatchTrajectory.init, BatchTrajectory.reset])
  refine ⟨t', hok, ?_, ?_, ?_⟩
  · simpa [BatchTrajectory.init, BatchTrajectory.reset] using hc
  · rw [hr]
    simp only [BatchTrajectory.init, BatchTrajectory.reset]
    by_cases hbs : bs.length = 0
    · simp [hbs]
    · have hne : ¬bs.length * envs = 0 := by
        intro h
        rcases Nat.mul_eq_zero.mp h with h | h
        · exact hbs h
        · omega
      simp only [hne, if_false, hbs, if_false]
      congr 1
  · intro b2 hb2 hfull
    have hb2' : b2.length = t'.num_envs := by rw [hb2, he, hinit]
    have hct' : t'.count ≤ t'.max_num_exp := by
      rw [hfull, hm]
      simp [BatchTrajectory.init, BatchTrajectory.reset]
    obtain ⟨t'', hok'', _, hm'', hc'', _⟩ := add_ok_spec t' b2 hb2' hct'
    refine ⟨t'', hok'', ?_⟩
    rw [hc'', hfull, hm]
    simp [BatchTrajectory.init, BatchTrajectory.reset]

/-- Witness for C1 at capacity 3, two environments, two add calls
(4 writes, so the buffer wraps). -/
theorem batchTrajectory_add_circular_invariant_witness :
    0 < 3 ∧ 0 < 2 ∧
    (∃ t', (BatchTrajectory.init Nat 3 2).addAll
        [[⟨0, 0, 0, 0, 0⟩, ⟨1, 1, 1, 1, 1⟩], [⟨2, 2, 2, 2, 2⟩, ⟨3, 3, 3, 3, 3⟩]] = .ok t' ∧
      t'.count = min (2 * 2) 3 ∧
      t'.recent_idx = (if (2 : Nat) = 0 then (-1 : Int)
        else ((2 * 2 : Int) - 1).emod (3 : Int)) ∧
      ∀ b2 : List (Experience Nat), b2.length = 2 → t'.count = 3 →
        ∃ t'', t'.add b2 = .ok t'' ∧ t''.count = 3) :=
  ⟨by decide, by decide,
    batchTrajectory_add_circular_invariant Nat 3 2 (by decide) (by decide)
      [[⟨0, 0, 0, 0, 0⟩, ⟨1, 1, 1, 1, 1⟩], [⟨2, 2, 2, 2, 2⟩, ⟨3, 3, 3, 3, 3⟩]]
      (by intro b hb; fin_cases hb <;> rfl)⟩

/-- State of `PPOTrajectory` (`ppo_trajectory.py`): the wrapped
`BatchTrajectory(max_n_steps)` — constructed with the base class's default
`num_envs = 1` — plus the two auxiliary arrays `action_log_prob` and
`v_pred`, each of length `max_n_steps`. -/
structure PPOTrajectory (τ : Type) where
  max_n_steps : Nat
  exp_trajectory : BatchTrajectory τ
  action_log_prob : List (Option τ)
  v_pred : List (Option τ)
deriving DecidableEq, Repr

namespace PPOTrajectory

/-- `PPOTrajectory.reset`: resets the base buffer and refills both auxiliary
arrays with empty placeholders. -/
def reset (t : PPOTrajectory τ) : PPOTrajectory τ :=
  { t with
    exp_trajectory := t.exp_trajectory.reset
    action_log_prob := List.replicate t.max_n_steps none
    v_pred := List.replicate t.max_n_steps none }

/-- `PPOTrajectory.__init__(max_n_steps)`: builds
`BatchTrajectory(max_n_steps)` (default `num_envs = 1`) and calls `reset`. -/
def init (τ : Type) (max_n_steps : Nat) : PPOTrajectory τ :=
  reset { max_n_steps := max_n_steps,
          exp_trajectory := BatchTrajectory.init τ max_n_steps 1,
          action_log_prob := [], v_pred := [] }

/-- `PPOTrajectory.add(experience, action_log_prob, v_pred)`: delegates the
experience to `BatchTrajectory.add` (a one-element batch, the base buffer
having `num_envs = 1`), then writes both auxiliary tensors at
`self.exp_trajectory.recent_idx` — the index the base buffer just assigned. -/
def add (t : PPOTrajectory τ) (experience : Experience τ)
    (action_log_prob v_pred : τ) : Except AineError (PPOTrajectory τ) :=
  match t.exp_trajectory.add [experience] with
  | .ok base =>
    .ok { t with
      exp_trajectory := base
      action_log_prob := t.action_log_prob.set base.recent_idx.toNat (some action_log_prob)
      v_pred := t.v_pred.set base.recent_idx.toNat (some v_pred) }
  | .error e => .error e

/-- A whole sequence of `PPOTrajectory.add` calls, each carrying an
experience and the two auxiliary tensors supplied in the same call. -/
def addAll (t : PPOTrajectory τ) : List (Experience τ × τ × τ) →
    Except AineError (PPOTrajectory τ)
  | [] => .ok t
  | c :: cs =>
    match t.add c.1 c.2.1 c.2.2 with
    | .ok t' => addAll t' cs
    | .error e => .error e

end PPOTrajectory

section PPOAlignment

variable {τ : Type}

lemma ppo_addAll_concat (cs : List (Experience τ × τ × τ)) (c : Experience τ × τ × τ)
    (t : PPOTrajectory τ) :
    t.addAll (cs ++ [c]) =
      match t.addAll cs with
      | .ok t' => t'.add c.1 c.2.1 c.2.2
      | .error e => .error e := by
  induction cs generalizing t with
  | nil =>
    simp only [List.nil_append, PPOTrajectory.addAll]
    cases t.add c.1 c.2.1 c.2.2 <;> rfl
  | cons x cs ih =>
    simp only [List.cons_append, PPOTrajectory.addAll]
    cases t.add x.1 x.2.1 x.2.2 <;> simp [ih]

/-- The joint-origin invariant of the PPO trajectory: after any sequence of
`add` calls on a fresh `PPOTrajectory`, every populated base slot `i` holds
the experience of some call `j` with `j % capacity = i`, and the two
auxiliary arrays hold, at the same index `i`, the auxiliary tensors supplied
by that very same call. -/
lemma ppo_addAll_invariant (cap : Nat) (hcap : 0 < cap)
    (cs : List (Experience τ × τ × τ)) :
    ∃ t, (PPOTrajectory.init τ cap).addAll cs = .ok t ∧
      t.max_n_steps = cap ∧
      t.exp_trajectory.num_envs = 1 ∧
      t.exp_trajectory.max_num_exp = cap ∧
      t.exp_trajectory.recent_idx =
        (if cs.length = 0 then (-1 : Int) else ((cs.length : Int) - 1).emod (cap : Int)) ∧
      t.exp_trajectory.states.length = cap ∧
      t.action_log_prob.length = cap ∧
      t.v_pred.length = cap ∧
      ∀ i, i < cap → i < cs.length →
        ∃ j, j < cs.length ∧ j % cap = i ∧
          ∃ c, cs[j]? = some c ∧
            t.exp_trajectory.states[i]? = some (some c.1.state) ∧
            t.action_log_prob[i]? = some (some c.2.1) ∧
            t.v_pred[i]? = some (some c.2.2) := by
  induction cs using List.reverseRecOn with
  | nil =>
    refine ⟨PPOTrajectory.init τ cap, rfl, rfl, rfl, rfl, ?_, ?_, ?_, ?_, ?_⟩ <;>
      simp [PPOTrajectory.init, PPOTrajectory.reset, BatchTrajectory.init,
        BatchTrajectory.reset]
  | append_singleton cs c ih =>
    obtain ⟨t, hok, hmax, henv, hcapb, hrec, hsl, hal, hvl, hslot⟩ := ih
    set n := cs.length with hn
    have hidx : ((t.exp_trajectory.recent_idx + 1).emod (cap : Int)) = ((n % cap : Nat) : Int) := by
      rw [hrec]
      by_cases h0 : n = 0
      · rw [if_pos h0, h0]
        have h00 : ((-1 : Int) + 1) = 0 := by ring
        rw [h00, Nat.zero_mod]
        exact Int.zero_emod _
      · rw [if_neg h0, emod_add_left_emod]
        have h1 : ((n : Int) - 1 + 1) = (n : Int) := by ring
        rw [h1, Int.natCast_mod]
        rfl
    have hnmod : n % cap < cap := Nat.mod_lt _ hcap
    -- the base `add` on a one-element batch is a single `addOne`
    have hbase : t.exp_trajectory.add [c.1] = .ok (t.exp_trajectory.addOne 0 c.1) := by
      unfold BatchTrajectory.add
      rw [if_pos (by rw [henv]; rfl)]
      rfl
    have haddOne_idx : (t.exp_trajectory.addOne 0 c.1).recent_idx = ((n % cap : Nat) : Int) := by
      show (t.exp_trajectory.recent_idx + 1).emod ((t.exp_trajectory.max_num_exp : Nat) : Int)
        = ((n % cap : Nat) : Int)
      rw [hcapb]
      exact hidx
    have haddOne_states : (t.exp_trajectory.addOne 0 c.1).states
        = t.exp_trajectory.states.set (n % cap) (some c.1.state) := by
      show t.exp_trajectory.states.set
        ((t.exp_trajectory.recent_idx + 1).emod ((t.exp_trajectory.max_num_exp : Nat) : Int)).toNat
        (some c.1.state) = _
      rw [hcapb, hidx, Int.toNat_natCast]
    have haddeq : t.add c.1 c.2.1 c.2.2 = .ok
        { t with
          exp_trajectory := t.exp_trajectory.addOne 0 c.1
          action_log_prob := t.action_log_prob.set (n % cap) (some c.2.1)
          v_pred := t.v_pred.set (n % cap) (some c.2.2) } := by
      unfold PPOTrajectory.add
      rw [hbase]
      show Except.ok
        { t with
          exp_trajectory := t.exp_trajectory.addOne 0 c.1
          action_log_prob := t.action_log_prob.set
            (t.exp_trajectory.addOne 0 c.1).recent_idx.toNat (some c.2.1)
          v_pred := t.v_pred.set
            (t.exp_trajectory.addOne 0 c.1).recent_idx.toNat (some c.2.2) } = _
      rw [haddOne_idx, Int.toNat_natCast]
    refine ⟨{ t with
        exp_trajectory := t.exp_trajectory.addOne 0 c.1
        action_log_prob := t.action_log_prob.set (n % cap) (some c.2.1)
        v_pred := t.v_pred.set (n % cap) (some c.2.2) },
      ?_, hmax, henv, hcapb, ?_, ?_, ?_, ?_, ?_⟩
    · rw [ppo_addAll_concat, hok]
      exact haddeq
    · show (t.exp_trajectory.addOne 0 c.1).recent_idx = _
      rw [haddOne_idx]
      simp only [List.length_append, List.length_singleton]
      rw [if_neg (by omega : ¬n + 1 = 0)]
      have h2 : ((n + 1 : Nat) : Int) - 1 = (n : Int) := by push_cast; ring
      rw [h2, Int.natCast_mod]
      rfl
    · show (t.exp_trajectory.addOne 0 c.1).states.length = cap
      rw [haddOne_states, List.length_set, hsl]
    · show (t.action_log_prob.set (n % cap) (some c.2.1)).length = cap
      rw [List.length_set, hal]
    · show (t.v_pred.set (n % cap) (some c.2.2)).length = cap
      rw [List.length_set, hvl]
    · intro i hicap hilen
      show ∃ j, j < (cs ++ [c]).length ∧ j % cap = i ∧
        ∃ cj, (cs ++ [c])[j]? = some cj ∧
          (t.exp_trajectory.addOne 0 c.1).states[i]? = some (some cj.1.state) ∧
          (t.action_log_prob.set (n % cap) (some c.2.1))[i]? = some (some cj.2.1) ∧
          (t.v_pred.set (n % cap) (some c.2.2))[i]? = some (some cj.2.2)
      rw [haddOne_states]
      by_cases heq : i = n % cap
      · refine ⟨n, by simp, heq.symm, c, ?_, ?_, ?_, ?_⟩
        · rw [hn, List.getElem?_concat_length]
        · subst heq
          rw [List.getElem?_set_self (by rw [hsl]; exact hnmod)]
        · subst heq
          rw [List.getElem?_set_self (by rw [hal]; exact hnmod)]
        · subst heq
          rw [List.getElem?_set_self (by rw [hvl]; exact hnmod)]
      · have hin : i < n := by
          have hlen : i < n + 1 := by simpa [List.length_append] using hilen
          rcases Nat.lt_succ_iff_lt_or_eq.mp hlen with h | h
          · exact h
          · exfalso
            apply heq
            rw [h, Nat.mod_eq_of_lt (h ▸ hicap)]
        obtain ⟨j, hj, hjmod, cj, hcj, hst, hlp, hvp⟩ := hslot i hicap hin
        refine ⟨j, by simp only [List.length_append, List.length_singleton]; omega,
          hjmod, cj, ?_, ?_, ?_, ?_⟩
        · rw [List.getElem?_append_left (by omega : j < cs.length)]
          exact hcj
        · rw [List.getElem?_set_ne (by omega : ¬(n % cap) = i)]
          exact hst
        · rw [List.getElem?_set_ne (by omega : ¬(n % cap) = i)]
          exact hlp
        · rw [List.getElem?_set_ne (by omega : ¬(n % cap) = i)]
          exact hvp

end PPOAlignment

/-- C2: for every sequence of `PPOTrajectory.add` calls on a fresh trajectory
of positive capacity, every populated base-buffer slot `i` holds the
experience of the call that wrote it, and the auxiliary arrays
(`action_log_prob` and `v_pred`) hold at index `i` exactly the auxiliary
tensors supplied in that same call — the specialized `add` delegates storage
to the base buffer and writes both auxiliary tensors at the index the base
buffer just assigned. -/
theorem ppoTrajectory_add_aux_alignment (τ : Type) (cap : Nat) (hcap : 0 < cap)
    (cs : List (Experience τ × τ × τ)) :
    ∃ t, (PPOTrajectory.init τ cap).addAll cs = .ok t ∧
      ∀ i, i < cap → i < cs.length →
        ∃ j, j < cs.length ∧ j % cap = i ∧
          ∃ c, cs[j]? = some c ∧
            t.exp_trajectory.states[i]? = some (some c.1.state) ∧
            t.action_log_prob[i]? = some (some c.2.1) ∧
            t.v_pred[i]? = some (some c.2.2) := by
  obtain ⟨t, hok, _, _, _, _, _, _, _, hslot⟩ := ppo_addAll_invariant cap hcap cs
  exact ⟨t, hok, hslot⟩

/-- Witness for C2 at capacity 2 and three add calls (the third call wraps
onto slot 0). -/
theorem ppoTrajectory_add_aux_alignment_witness :
    0 < 2 ∧
    (∃ t, (PPOTrajectory.init Nat 2).addAll
        [(⟨0, 0, 0, 0, 0⟩, 10, 20), (⟨1, 1, 1, 1, 1⟩, 11, 21), (⟨2, 2, 2, 2, 2⟩, 12, 22)]
        = .ok t ∧
      ∀ i, i < 2 → i < 3 →
        ∃ j, j < 3 ∧ j % 2 = i ∧
          ∃ c, [(⟨0, 0, 0, 0, 0⟩, 10, 20), ((⟨1, 1, 1, 1, 1⟩ : Experience Nat), 11, 21),
                (⟨2, 2, 2, 2, 2⟩, 12, 22)][j]? = some c ∧
            t.exp_trajectory.states[i]? = some (some c.1.state) ∧
            t.action_log_prob[i]? = some (some c.2.1) ∧
            t.v_pred[i]? = some (some c.2.2)) :=
  ⟨by decide,
    ppoTrajectory_add_aux_alignment Nat 2 (by decide)
      [(⟨0, 0, 0, 0, 0⟩, 10, 20), (⟨1, 1, 1, 1, 1⟩, 11, 21), (⟨2, 2, 2, 2, 2⟩, 12, 22)]⟩

/-- The batch object returned by the base buffer's `sample`.
Modelled from the spec: `BatchTrajectory.sample` is called by
`PPOTrajectory.sample` but its body is not among the sources; per spec §4.1
it gathers all slots into batched tensors preserving slot order and reports
`n_steps = capacity / num_envs`. The batch's `next_obs` field is assembled by
the missing code in a way the spec does not detail and no claim depends on,
so it is not modelled. -/
structure SampledBatch (τ : Type) where
  obs : List (Option τ)
  action : List (Option τ)
  reward : List (Option τ)
  terminated : List (Option τ)
  n_steps : Nat
deriving DecidableEq, Repr

/-- Modelled from the spec: `BatchTrajectory.sample` (spec §4.1) — fails with
`ContractViolation` if `count < capacity`, otherwise returns the gathered
slots in slot order with `n_steps = capacity / num_envs` and resets the
internal state (destructive sampling). -/
def BatchTrajectory.sample (t : BatchTrajectory τ) :
    Except AineError (SampledBatch τ × BatchTrajectory τ) :=
  if t.count < t.max_num_exp then
    .error .ContractViolation
  else
    .ok ({ obs := t.states, action := t.actions, reward := t.rewards,
           terminated := t.terminateds, n_steps := t.max_num_exp / t.num_envs },
         t.reset)

/-- `PPOExperienceBatch` (`ppo_trajectory.py`): the base batch fields plus
the concatenated auxiliary tensors (`next_obs` omitted with the base batch's
`next_obs`, see `SampledBatch`). -/
structure PPOExperienceBatch (τ : Type) where
  obs : List (Option τ)
  action : List (Option τ)
  reward : List (Option τ)
  terminated : List (Option τ)
  action_log_prob : List (Option τ)
  v_pred : List (Option τ)
  n_steps : Nat
deriving DecidableEq, Repr

/-- `PPOTrajectory.sample`: delegates to the base `sample` (which already
resets the base buffer), attaches the auxiliary arrays concatenated in slot
order (`torch.cat(..., dim=0)`), then calls `self.reset()` and returns the
batch. -/
def PPOTrajectory.sample (t : PPOTrajectory τ) :
    Except AineError (PPOExperienceBatch τ × PPOTrajectory τ) :=
  match t.exp_trajectory.sample with
  | .ok (b, base') =>
    .ok ({ obs := b.obs, action := b.action, reward := b.reward,
           terminated := b.terminated,
           action_log_prob := t.action_log_prob, v_pred := t.v_pred,
           n_steps := b.n_steps },
         PPOTrajectory.reset { t with exp_trajectory := base' })
  | .error e => .error e

/-- C4: when the trajectory is exactly full, `sample` succeeds with a batch
whose total example count (every gathered slot array, base and auxiliary)
equals the capacity, and leaves the trajectory reset — count 0, cursor `-1`,
every slot and auxiliary array refilled with empty placeholders — so that a
second `sample` without refilling fails with `ContractViolation`. -/
theorem ppoTrajectory_sample_destructive (τ : Type) (t : PPOTrajectory τ)
    (hcap : 0 < t.exp_trajectory.max_num_exp)
    (hms : t.max_n_steps = t.exp_trajectory.max_num_exp)
    (hfull : t.exp_trajectory.count = t.exp_trajectory.max_num_exp)
    (hsl : t.exp_trajectory.states.length = t.exp_trajectory.max_num_exp)
    (hacl : t.exp_trajectory.actions.length = t.exp_trajectory.max_num_exp)
    (hrl : t.exp_trajectory.rewards.length = t.exp_trajectory.max_num_exp)
    (htl : t.exp_trajectory.terminateds.length = t.exp_trajectory.max_num_exp)
    (hal : t.action_log_prob.length = t.max_n_steps)
    (hvl : t.v_pred.length = t.max_n_steps) :
    ∃ b t', t.sample = .ok (b, t') ∧
      b.obs.length = t.exp_trajectory.max_num_exp ∧
      b.action.length = t.exp_trajectory.max_num_exp ∧
      b.reward.length = t.exp_trajectory.max_num_exp ∧
      b.terminated.length = t.exp_trajectory.max_num_exp ∧
      b.action_log_prob.length = t.exp_trajectory.max_num_exp ∧
      b.v_pred.length = t.exp_trajectory.max_num_exp ∧
      t'.exp_trajectory.count = 0 ∧
      t'.exp_trajectory.recent_idx = -1 ∧
      t'.exp_trajectory.states = List.replicate t.exp_trajectory.max_num_exp none ∧
      t'.exp_trajectory.actions = List.replicate t.exp_trajectory.max_num_exp none ∧
      t'.exp_trajectory.rewards = List.replicate t.exp_trajectory.max_num_exp none ∧
      t'.exp_trajectory.terminateds = List.replicate t.exp_trajectory.max_num_exp none ∧
      t'.action_log_prob = List.replicate t.exp_trajectory.max_num_exp none ∧
      t'.v_pred = List.replicate t.exp_trajectory.max_num_exp none ∧
      t'.sample = .error .ContractViolation := by
  have hnotlt : ¬t.exp_trajectory.count < t.exp_trajectory.max_num_exp := by
    rw [hfull]
    exact lt_irrefl _
  have hbase : t.exp_trajectory.sample = .ok
      ({ obs := t.exp_trajectory.states, action := t.exp_trajectory.actions,
         reward := t.exp_trajectory.rewards, terminated := t.exp_trajectory.terminateds,
         n_steps := t.exp_trajectory.max_num_exp / t.exp_trajectory.num_envs },
       t.exp_trajectory.reset) := by
    unfold BatchTrajectory.sample
    rw [if_neg hnotlt]
  have hsample : t.sample = .ok
      ({ obs := t.exp_trajectory.states, action := t.exp_trajectory.actions,
         reward := t.exp_trajectory.rewards, terminated := t.exp_trajectory.terminateds,
         action_log_prob := t.action_log_prob, v_pred := t.v_pred,
         n_steps := t.exp_trajectory.max_num_exp / t.exp_trajectory.num_envs },
       PPOTrajectory.reset { t with exp_trajectory := t.exp_trajectory.reset }) := by
    unfold PPOTrajectory.sample
    rw [hbase]
  refine ⟨_, _, hsample, hsl, hacl, hrl, htl, ?_, ?_, rfl, rfl, rfl, rfl, rfl, rfl,
    ?_, ?_, ?_⟩
  · show t.action_log_prob.length = _
    rw [hal, hms]
  · show t.v_pred.length = _
    rw [hvl, hms]
  · show List.replicate t.max_n_steps (none : Option τ) = _
    rw [hms]
  · show List.replicate t.max_n_steps (none : Option τ) = _
    rw [hms]
  · have hlt : (PPOTrajectory.reset
        { t with exp_trajectory := t.exp_trajectory.reset }).exp_trajectory.count
        < (PPOTrajectory.reset
        { t with exp_trajectory := t.exp_trajectory.reset }).exp_trajectory.max_num_exp :=
      hcap
    simp only [PPOTrajectory.sample, BatchTrajectory.sample, if_pos hlt]

/-- Witness for C4: a concrete full trajectory of capacity 1. -/
theorem ppoTrajectory_sample_destructive_witness :
    (0 : Nat) < 1 ∧
    (∃ b t',
      PPOTrajectory.sample
        { max_n_steps := 1,
          exp_trajectory :=
            { num_envs := 1, max_num_exp := 1, count := 1, recent_idx := 0,
              states := [some 5], actions := [some 6], rewards := [some 7],
              terminateds := [some 8], next_state_buffer := [some 9] },
          action_log_prob := [some 3], v_pred := [some 4] } = .ok (b, t') ∧
      b.obs.length = 1 ∧ b.action.length = 1 ∧ b.reward.length = 1 ∧
      b.terminated.length = 1 ∧ b.action_log_prob.length = 1 ∧ b.v_pred.length = 1 ∧
      t'.exp_trajectory.count = 0 ∧
      t'.exp_trajectory.recent_idx = -1 ∧
      t'.exp_trajectory.states = List.replicate 1 (none : Option Nat) ∧
      t'.exp_trajectory.actions = List.replicate 1 (none : Option Nat) ∧
      t'.exp_trajectory.rewards = List.replicate 1 (none : Option Nat) ∧
      t'.exp_trajectory.terminateds = List.replicate 1 (none : Option Nat) ∧
      t'.action_log_prob = List.replicate 1 (none : Option Nat) ∧
      t'.v_pred = List.replicate 1 (none : Option Nat) ∧
      t'.sample = .error .ContractViolation) :=
  ⟨by decide,
    ppoTrajectory_sample_destructive Nat
      { max_n_steps := 1,
        exp_trajectory :=
          { num_envs := 1, max_num_exp := 1, count := 1, recent_idx := 0,
            states := [some 5], actions := [some 6], rewards := [some 7],
            terminateds := [some 8], next_state_buffer := [some 9] },
        action_log_prob := [some 3], v_pred := [some 4] }
      (by decide) rfl rfl rfl rfl rfl rfl rfl rfl⟩

/-- Modelled from the spec: the logical `Clock`
(`aine_drl.drl_util.Clock`, not among the sources). Fields per spec §3;
`tick_gloabl_time_step` (the source method's name as called in `agent.py`)
advances the global time step by one and accrues the running episode
length; `tick_episode` advances the episode counter and resets the episode
length (spec §8 clock scenario). -/
structure Clock where
  num_envs : Nat
  global_time_step : Nat
  episode : Nat
  episode_len : Nat
  training_step : Nat
deriving DecidableEq, Repr

def Clock.tick_gloabl_time_step (c : Clock) : Clock :=
  { c with
    global_time_step := c.global_time_step + 1
    episode_len := c.episode_len + 1 }

def Clock.tick_episode (c : Clock) : Clock :=
  { c with
    episode := c.episode + 1
    episode_len := 0 }

/-- Modelled from the spec: `aine_drl.util.IncrementalAverage` (not among
the sources) — a running-average accumulator with `update` (add one sample),
`count`, `average` and `reset`. -/
structure IncrementalAverage where
  count : Nat
  sum : ℚ
deriving DecidableEq, Repr

def IncrementalAverage.update (a : IncrementalAverage) (x : ℚ) : IncrementalAverage :=
  { count := a.count + 1, sum := a.sum + x }

def IncrementalAverage.average (a : IncrementalAverage) : ℚ :=
  a.sum / (a.count : ℚ)

def IncrementalAverage.reset (a : IncrementalAverage) : IncrementalAverage :=
  { count := 0, sum := 0 }

/-- Modelled from the spec: the batched `aine_drl.experience.Experience`
consumed by `Agent.update` (not among the sources) — only the members the
agent reads: `num_envs`, the per-environment reward vector and the
per-environment termination-flag vector (float flags compared against
`0.5`, entries here `ℚ`). -/
structure AgentExperience where
  num_envs : Nat
  reward : List ℚ
  terminated : List ℚ
deriving DecidableEq, Repr

/-- The `BehaviorType` enum of `agent.py` (values `TRAIN`, `INFERENCE`). -/
inductive BehaviorType where
  | TRAIN
  | INFERENCE
deriving DecidableEq, Repr

/-- The mutable state of `Agent` (`agent.py`) touched by `update` and
`log_data`: the clock, the behavior-mode field (a dynamically typed Python
attribute, hence `BehaviorType ⊕ Nat` with `Sum.inr` standing for any
non-enum value the setter lets through), the traced environment index
(`0` at construction) and the running statistics. -/
structure AgentState where
  num_envs : Nat
  clock : Clock
  behavior_type : BehaviorType ⊕ Nat
  traced_env : Nat
  cumulative_average_reward : IncrementalAverage
  cumulative_reward : ℚ
  episode_average_len : IncrementalAverage
deriving DecidableEq, Repr

namespace Agent

/-- `Agent._update_info`, in the source's statement order: tick the global
time step, accumulate the traced environment's reward, then, if the traced
environment's termination flag exceeds `0.5`, fold the episode's cumulative
reward and the clock's episode length into the running averages, zero the
per-episode accumulator and tick the episode counter. -/
def update_info (s : AgentState) (e : AgentExperience) : AgentState :=
  let s1 := { s with clock := s.clock.tick_gloabl_time_step }
  let s2 := { s1 with
    cumulative_reward := s1.cumulative_reward + e.reward.getD s1.traced_env 0 }
  if e.terminated.getD s2.traced_env 0 > 1/2 then
    { s2 with
      cumulative_average_reward := s2.cumulative_average_reward.update s2.cumulative_reward
      cumulative_reward := 0
      episode_average_len := s2.episode_average_len.update (s2.clock.episode_len : ℚ)
      clock := s2.clock.tick_episode }
  else
    s2

/-- `Agent.update`: the `assert experience.num_envs == self.num_envs` is the
`ContractViolation` branch (spec §7), then `_update_info` runs. -/
def update (s : AgentState) (e : AgentExperience) : Except AineError AgentState :=
  if e.num_envs = s.num_envs then
    .ok (update_info s e)
  else
    .error .ContractViolation

/-- The effect order as the spec words it (§4.4 steps 1–3): first append the
traced environment's reward to the per-episode accumulator, then advance the
clock's global time step by one, then, if the traced environment's
termination flag is set, finalize the episode statistics, reset the
per-episode accumulator and advance the episode counter. Written from the
spec's words, to be compared with `update_info`. -/
def update_info_spec_order (s : AgentState) (e : AgentExperience) : AgentState :=
  let s1 := { s with
    cumulative_reward := s.cumulative_reward + e.reward.getD s.traced_env 0 }
  let s2 := { s1 with clock := s1.clock.tick_gloabl_time_step }
  if e.terminated.getD s2.traced_env 0 > 1/2 then
    { s2 with
      cumulative_average_reward := s2.cumulative_average_reward.update s2.cumulative_reward
      cumulative_reward := 0
      episode_average_len := s2.episode_average_len.update (s2.clock.episode_len : ℚ)
      clock := s2.clock.tick_episode }
  else
    s2

/-- Result of one `Agent.select_action` call: the chosen action together
with whether gradient tracking was active for the chosen path (`torch.no_grad`
disables it around the inference path). -/
structure SelectActionResult (τ : Type) where
  action : τ
  grad_tracking : Bool
deriving DecidableEq, Repr

/-- `Agent.select_action`: the if/elif/else chain on `self.behavior_type`.
The two abstract action-selection paths are parameters (they are abstract
methods of `Agent`); the `else` branch raises (`InvalidState` per spec §7). -/
def select_action (select_action_train select_action_inference : τ → τ)
    (behavior_type : BehaviorType ⊕ Nat) (obs : τ) :
    Except AineError (SelectActionResult τ) :=
  if behavior_type = Sum.inl BehaviorType.TRAIN then
    .ok { action := select_action_train obs, grad_tracking := true }
  else if behavior_type = Sum.inl BehaviorType.INFERENCE then
    .ok { action := select_action_inference obs, grad_tracking := false }
  else
    .error .InvalidState

end Agent

/-- C3: a well-sized `Agent.update` call succeeds, and its effect on the
agent state is exactly the spec's step order — append the traced
environment's reward, advance the global time step by one, then on
termination finalize the episode statistics, reset the per-episode
accumulator and advance the episode counter. (The source ticks the clock
before accumulating the reward, but the two effects touch disjoint state,
so the resulting state is the one the spec's order produces.) -/
theorem agent_update_effect_order (s : AgentState) (e : AgentExperience)
    (h : e.num_envs = s.num_envs) :
    Agent.update s e = .ok (Agent.update_info_spec_order s e) := by
  unfold Agent.update
  rw [if_pos h]
  rfl

/-- Witness for C3: one terminating update on a one-environment agent. -/
theorem agent_update_effect_order_witness :
    Agent.update
      { num_envs := 1,
        clock := { num_envs := 1, global_time_step := 4, episode := 0,
                   episode_len := 4, training_step := 0 },
        behavior_type := Sum.inl BehaviorType.TRAIN, traced_env := 0,
        cumulative_average_reward := { count := 0, sum := 0 },
        cumulative_reward := 3,
        episode_average_len := { count := 0, sum := 0 } }
      { num_envs := 1, reward := [2], terminated := [1] }
    = .ok (Agent.update_info_spec_order
      { num_envs := 1,
        clock := { num_envs := 1, global_time_step := 4, episode := 0,
                   episode_len := 4, training_step := 0 },
        behavior_type := Sum.inl BehaviorType.TRAIN, traced_env := 0,
        cumulative_average_reward := { count := 0, sum := 0 },
        cumulative_reward := 3,
        episode_average_len := { count := 0, sum := 0 } }
      { num_envs := 1, reward := [2], terminated := [1] }) :=
  agent_update_effect_order _ _ rfl

/-- C5: both batch-ingestion operations fail with `ContractViolation` on a
batch-size mismatch — `BatchTrajectory.add` when the supplied sequence's
length differs from `num_envs`, and `Agent.update` when the experience
batch's environment count differs from the agent's `num_envs`; in both
cases the error is returned immediately and no state is produced. -/
theorem batch_size_contract_violations (τ : Type) :
    (∀ (t : BatchTrajectory τ) (exps : List (Experience τ)),
      exps.length ≠ t.num_envs → t.add exps = .error .ContractViolation) ∧
    (∀ (s : AgentState) (e : AgentExperience),
      e.num_envs ≠ s.num_envs → Agent.update s e = .error .ContractViolation) := by
  constructor
  · intro t exps h
    unfold BatchTrajectory.add
    rw [if_neg h]
  · intro s e h
    unfold Agent.update
    rw [if_neg h]

/-- Witness for C5: a one-element batch against a two-environment buffer and
a two-environment experience against a one-environment agent. -/
theorem batch_size_contract_violations_witness :
    (BatchTrajectory.init Nat 3 2).add [⟨0, 0, 0, 0, 0⟩] = .error .ContractViolation ∧
    Agent.update
      { num_envs := 1,
        clock := { num_envs := 1, global_time_step := 0, episode := 0,
                   episode_len := 0, training_step := 0 },
        behavior_type := Sum.inl BehaviorType.TRAIN, traced_env := 0,
        cumulative_average_reward := { count := 0, sum := 0 },
        cumulative_reward := 0,
        episode_average_len := { count := 0, sum := 0 } }
      { num_envs := 2, reward := [0, 0], terminated := [0, 0] }
    = .error .ContractViolation :=
  ⟨(batch_size_contract_violations Nat).1 _ _ (by decide),
   (batch_size_contract_violations Nat).2 _ _ (by decide)⟩

/-- C8: `Agent.select_action` dispatches on the behavior mode — `TRAIN`
invokes the training path with gradient tracking on, `INFERENCE` invokes the
inference path inside the no-gradient scope, and any other stored value
fails with `InvalidState` without selecting an action. -/
theorem agent_select_action_dispatch (τ : Type)
    (select_action_train select_action_inference : τ → τ)
    (b : BehaviorType ⊕ Nat) (obs : τ) :
    (b = Sum.inl BehaviorType.TRAIN →
      Agent.select_action select_action_train select_action_inference b obs
        = .ok { action := select_action_train obs, grad_tracking := true }) ∧
    (b = Sum.inl BehaviorType.INFERENCE →
      Agent.select_action select_action_train select_action_inference b obs
        = .ok { action := select_action_inference obs, grad_tracking := false }) ∧
    (b ≠ Sum.inl BehaviorType.TRAIN → b ≠ Sum.inl BehaviorType.INFERENCE →
      Agent.select_action select_action_train select_action_inference b obs
        = .error .InvalidState) := by
  refine ⟨?_, ?_, ?_⟩
  · intro hb
    unfold Agent.select_action
    rw [if_pos hb]
  · intro hb
    unfold Agent.select_action
    rw [if_neg (by rw [hb]; intro hc; exact BehaviorType.noConfusion (Sum.inl.inj hc)),
      if_pos hb]
  · intro h1 h2
    unfold Agent.select_action
    rw [if_neg h1, if_neg h2]

/-- Witness for C8: the three dispatch arms at concrete inputs. -/
theorem agent_select_action_dispatch_witness :
    (Agent.select_action (fun n => n + 1) (fun n => n + 2)
      (Sum.inl BehaviorType.TRAIN) 5
      = .ok { action := 6, grad_tracking := true }) ∧
    (Agent.select_action (fun n => n + 1) (fun n => n + 2)
      (Sum.inl BehaviorType.INFERENCE) 5
      = .ok { action := 7, grad_tracking := false }) ∧
    (Agent.select_action (fun n => n + 1) (fun n => n + 2)
      (Sum.inr 0) 5
      = .error .InvalidState) :=
  ⟨(agent_select_action_dispatch Nat _ _ _ 5).1 rfl,
   (agent_select_action_dispatch Nat _ _ _ 5).2.1 rfl,
   (agent_select_action_dispatch Nat _ _ _ 5).2.2 (by decide) (by decide)⟩

section LogData

variable {V : Type}

/-- Python-dict insertion on an ordered association list: replace the value
in place when the key is present, append the binding otherwise. -/
def dictInsert (d : List (String × V)) (k : String) (v : V) : List (String × V) :=
  if d.any (fun p => p.1 = k) then
    d.map (fun p => if p.1 = k then (k, v) else p)
  else
    d ++ [(k, v)]

/-- Python `dict.update(other)`: insert every binding of `other` in order. -/
def dictUpdate (d other : List (String × V)) : List (String × V) :=
  other.foldl (fun acc p => dictInsert acc p.1 p.2) d

lemma dictInsert_key_ne (d : List (String × V)) (k key : String) (v : V)
    (hd : ∀ p ∈ d, p.1 ≠ key) (hk : k ≠ key) :
    ∀ p ∈ dictInsert d k v, p.1 ≠ key := by
  intro p hp
  unfold dictInsert at hp
  by_cases h : d.any (fun q => q.1 = k)
  · rw [if_pos h] at hp
    obtain ⟨q, hq, hqe⟩ := List.mem_map.mp hp
    by_cases hqk : q.1 = k
    · rw [if_pos hqk] at hqe
      rw [← hqe]
      exact hk
    · rw [if_neg hqk] at hqe
      rw [← hqe]
      exact hd q hq
  · rw [if_neg h] at hp
    rcases List.mem_append.mp hp with h1 | h1
    · exact hd p h1
    · rw [List.mem_singleton.mp h1]
      exact hk

lemma dictUpdate_key_ne (d other : List (String × V)) (key : String)
    (hd : ∀ p ∈ d, p.1 ≠ key) (ho : ∀ p ∈ other, p.1 ≠ key) :
    ∀ p ∈ dictUpdate d other, p.1 ≠ key := by
  induction other generalizing d with
  | nil => exact hd
  | cons q other ih =>
    intro p hp
    unfold dictUpdate at hp
    rw [List.foldl_cons] at hp
    exact ih (dictInsert d q.1 q.2)
      (dictInsert_key_ne d q.1 key q.2 hd (ho q (by simp)))
      (fun r hr => ho r (by simp [hr])) p hp

end LogData

/-- `Agent.log_data` (`agent.py`): when at least one episode sample has been
accumulated, the two environment metrics are reported — stamped with the
clock's global time step, resp. episode number — and both accumulators are
reset; then the logable network's and the logable policy's own log data are
merged in (`dict.update`; the empty list stands for a component that is not
logable). Returns the mapping together with the post-read agent state. -/
def Agent.log_data (network_log policy_log : List (String × (ℚ × Nat)))
    (s : AgentState) : List (String × (ℚ × Nat)) × AgentState :=
  let base : List (String × (ℚ × Nat)) × AgentState :=
    if 0 < s.cumulative_average_reward.count then
      ([("Environment/Cumulative Reward",
          (s.cumulative_average_reward.average, s.clock.global_time_step)),
        ("Environment/Episode Length",
          (s.episode_average_len.average, s.clock.episode))],
       { s with
         cumulative_average_reward := s.cumulative_average_reward.reset
         episode_average_len := s.episode_average_len.reset })
    else
      ([], s)
  (dictUpdate (dictUpdate base.1 network_log) policy_log, base.2)

/-- C9: when no episode of the traced environment has completed since the
last statistics reset (the cumulative-average-reward accumulator holds zero
samples) and the logable components do not themselves emit the two
environment keys, `Agent.log_data` omits `Environment/Cumulative Reward`
and `Environment/Episode Length` entirely and leaves the agent state — in
particular both accumulators — unchanged; the accumulators are reset
exactly on a read that reports them (accumulator count positive). -/
theorem agent_log_data_reset_only_on_report
    (network_log policy_log : List (String × (ℚ × Nat))) (s : AgentState)
    (hn : ∀ p ∈ network_log, p.1 ≠ "Environment/Cumulative Reward" ∧
      p.1 ≠ "Environment/Episode Length")
    (hp : ∀ p ∈ policy_log, p.1 ≠ "Environment/Cumulative Reward" ∧
      p.1 ≠ "Environment/Episode Length") :
    (s.cumulative_average_reward.count = 0 →
      (∀ p ∈ (Agent.log_data network_log policy_log s).1,
        p.1 ≠ "Environment/Cumulative Reward" ∧
        p.1 ≠ "Environment/Episode Length") ∧
      (Agent.log_data network_log policy_log s).2 = s) ∧
    (0 < s.cumulative_average_reward.count →
      (Agent.log_data network_log policy_log s).2.cumulative_average_reward.count = 0 ∧
      (Agent.log_data network_log policy_log s).2.episode_average_len.count = 0) := by
  constructor
  · intro h0
    have hneg : ¬0 < s.cumulative_average_reward.count := by omega
    constructor
    · intro p hmem
      unfold Agent.log_data at hmem
      rw [if_neg hneg] at hmem
      refine ⟨?_, ?_⟩
      · exact dictUpdate_key_ne _ policy_log _
          (dictUpdate_key_ne _ network_log _ (by intro q hq; simp at hq)
            (fun q hq => (hn q hq).1))
          (fun q hq => (hp q hq).1) p hmem
      · exact dictUpdate_key_ne _ policy_log _
          (dictUpdate_key_ne _ network_log _ (by intro q hq; simp at hq)
            (fun q hq => (hn q hq).2))
          (fun q hq => (hp q hq).2) p hmem
    · unfold Agent.log_data
      rw [if_neg hneg]
  · intro hpos
    unfold Agent.log_data
    rw [if_pos hpos]
    exact ⟨rfl, rfl⟩

/-- Witness for C9: an agent with empty accumulators and no logable
components. -/
theorem agent_log_data_reset_only_on_report_witness :
    ((0 : Nat) = 0 →
      (∀ p ∈ (Agent.log_data [] []
        { num_envs := 1,
          clock := { num_envs := 1, global_time_step := 7, episode := 0,
                     episode_len := 7, training_step := 0 },
          behavior_type := Sum.inl BehaviorType.TRAIN, traced_env := 0,
          cumulative_average_reward := { count := 0, sum := 0 },
          cumulative_reward := 3,
          episode_average_len := { count := 0, sum := 0 } }).1,
        p.1 ≠ "Environment/Cumulative Reward" ∧
        p.1 ≠ "Environment/Episode Length") ∧
      (Agent.log_data [] []
        { num_envs := 1,
          clock := { num_envs := 1, global_time_step := 7, episode := 0,
                     episode_len := 7, training_step := 0 },
          behavior_type := Sum.inl BehaviorType.TRAIN, traced_env := 0,
          cumulative_average_reward := { count := 0, sum := 0 },
          cumulative_reward := 3,
          episode_average_len := { count := 0, sum := 0 } }).2 =
        { num_envs := 1,
          clock := { num_envs := 1, global_time_step := 7, episode := 0,
                     episode_len := 7, training_step := 0 },
          behavior_type := Sum.inl BehaviorType.TRAIN, traced_env := 0,
          cumulative_average_reward := { count := 0, sum := 0 },
          cumulative_reward := 3,
          episode_average_len := { count := 0, sum := 0 } }) ∧
    ((0 : Nat) < 0 →
      (Agent.log_data [] []
        { num_envs := 1,
          clock := { num_envs := 1, global_time_step := 7, episode := 0,
                     episode_len := 7, training_step := 0 },
          behavior_type := Sum.inl BehaviorType.TRAIN, traced_env := 0,
          cumulative_average_reward := { count := 0, sum := 0 },
          cumulative_reward := 3,
          episode_average_len := { count := 0, sum := 0 } }).2.cumulative_average_reward.count = 0 ∧
      (Agent.log_data [] []
        { num_envs := 1,
          clock := { num_envs := 1, global_time_step := 7, episode := 0,
                     episode_len := 7, training_step := 0 },
          behavior_type := Sum.inl BehaviorType.TRAIN, traced_env := 0,
          cumulative_average_reward := { count := 0, sum := 0 },
          cumulative_reward := 3,
          episode_average_len := { count := 0, sum := 0 } }).2.episode_average_len.count = 0) :=
  agent_log_data_reset_only_on_report [] []
    { num_envs := 1,
      clock := { num_envs := 1, global_time_step := 7, episode := 0,
                 episode_len := 7, training_step := 0 },
      behavior_type := Sum.inl BehaviorType.TRAIN, traced_env := 0,
      cumulative_average_reward := { count := 0, sum := 0 },
      cumulative_reward := 3,
      episode_average_len := { count := 0, sum := 0 } }
    (by intro p hp; simp at hp) (by intro p hp; simp at hp)

/-- Inner product of a weight row with an input row (`torch.nn.Linear`
semantics on one example). -/
def lin_comb (w x : List ℚ) : ℚ :=
  ((w.zip x).map (fun p => p.1 * p.2)).sum

/-- One `torch.nn.Linear` application to a single example row:
`out[j] = Σ_k weight[j][k] * x[k] + bias[j]`. -/
def linear_row (weight : List (List ℚ)) (bias : List ℚ) (x : List ℚ) : List ℚ :=
  (weight.zip bias).map (fun p => lin_comb p.1 x + p.2)

/-- The learned weight matrix of `nn.Linear(in_features, out_features)`,
materialized with exactly the declared shape from an arbitrary entry
function (its entries are learned and unconstrained). -/
def mk_weight (out_features in_features : Nat) (w : Nat → Nat → ℚ) : List (List ℚ) :=
  (List.range out_features).map (fun j => (List.range in_features).map (w j))

/-- The learned bias vector of `nn.Linear(in_features, out_features)`. -/
def mk_bias (out_features : Nat) (b : Nat → ℚ) : List ℚ :=
  (List.range out_features).map b

/-- `torch.split(x, sizes, dim=1)` on one row: consecutive segments of the
given sizes. -/
def splitSizes : List Nat → List ℚ → List (List ℚ)
  | [], _ => []
  | n :: ns, xs => xs.take n :: splitSizes ns (xs.drop n)

/-- `F.softmax(x, dim=1)` on one row, parameterized by the exponential map
`e` (the mathematical `exp`; the theorems assume only `0 < e z`, which is
the one property of `exp` the normalization argument uses). -/
def softmaxRow (e : ℚ → ℚ) (row : List ℚ) : List ℚ :=
  row.map (fun z => e z / (row.map e).sum)

/-- State of `DiscreteActionLayer` (`network.py`): the normalized branch
sizes, their sum, the `is_logits` flag and the single linear projection. -/
structure DiscreteActionLayer where
  is_logits : Bool
  num_discrete_actions : List Nat
  total_num_discrete_actions : Nat
  weight : List (List ℚ)
  bias : List ℚ
deriving DecidableEq, Repr

/-- `DiscreteActionLayer.__init__`: a plain-int action count is normalized
to the one-element tuple `(n,)`; the branch sizes are summed into
`total_num_discrete_actions` and one
`nn.Linear(in_features, total_num_discrete_actions)` is created. -/
def DiscreteActionLayer.init (in_features : Nat)
    (num_discrete_actions : Nat ⊕ List Nat) (is_logits : Bool)
    (w : Nat → Nat → ℚ) (b : Nat → ℚ) : DiscreteActionLayer :=
  let nda := match num_discrete_actions with
    | .inl n => [n]
    | .inr l => l
  { is_logits := is_logits
    num_discrete_actions := nda
    total_num_discrete_actions := nda.sum
    weight := mk_weight nda.sum in_features w
    bias := mk_bias nda.sum b }

/-- `DiscreteActionLayer.forward`: apply the projection to every row of the
input batch, split each output row along the feature axis into per-branch
segments (`torch.split(..., num_discrete_actions, dim=1)`), and when
`is_logits` is false replace each branch's rows by their softmax. The value
is the list of per-branch tensors, each a list of rows, as handed to
`PolicyDistributionParameter.create(discrete_pdparams=...)`. -/
def DiscreteActionLayer.forward (L : DiscreteActionLayer) (e : ℚ → ℚ)
    (x : List (List ℚ)) : List (List (List ℚ)) :=
  (List.range L.num_discrete_actions.length).map (fun bIdx =>
    x.map (fun r =>
      let seg := (splitSizes L.num_discrete_actions (linear_row L.weight L.bias r)).getD bIdx []
      if L.is_logits then seg else softmaxRow e seg))

section NetworkLemmas

lemma linear_row_length (weight : List (List ℚ)) (bias : List ℚ) (x : List ℚ)
    (h : weight.length = bias.length) :
    (linear_row weight bias x).length = weight.length := by
  unfold linear_row
  rw [List.length_map, List.length_zip, h, min_self]

lemma mk_weight_length (o i : Nat) (w : Nat → Nat → ℚ) : (mk_weight o i w).length = o := by
  unfold mk_weight
  rw [List.length_map, List.length_range]

lemma mk_bias_length (o : Nat) (b : Nat → ℚ) : (mk_bias o b).length = o := by
  unfold mk_bias
  rw [List.length_map, List.length_range]

lemma splitSizes_getD_length (ns : List Nat) (xs : List ℚ) (h : xs.length = ns.sum) :
    ∀ k, k < ns.length → ((splitSizes ns xs).getD k []).length = ns.getD k 0 := by
  induction ns generalizing xs with
  | nil =>
    intro k hk
    exact absurd hk (by simp)
  | cons n ns ih =>
    intro k hk
    cases k with
    | zero =>
      show ((xs.take n :: splitSizes ns (xs.drop n)).getD 0 []).length = n
      simp only [List.getD_cons_zero, List.length_take]
      simp only [List.sum_cons] at h
      omega
    | succ k =>
      show ((xs.take n :: splitSizes ns (xs.drop n)).getD (k + 1) []).length = ns.getD k 0
      simp only [List.getD_cons_succ]
      refine ih (xs.drop n) ?_ k (by simpa using hk)
      simp only [List.length_drop]
      simp only [List.sum_cons] at h
      omega

lemma list_sum_div (l : List ℚ) (c : ℚ) : (l.map (fun y => y / c)).sum = l.sum / c := by
  induction l with
  | nil => simp
  | cons a l ih => simp [ih, add_div]

lemma softmaxRow_length (e : ℚ → ℚ) (row : List ℚ) :
    (softmaxRow e row).length = row.length := by
  unfold softmaxRow
  rw [List.length_map]

lemma softmaxRow_sum (e : ℚ → ℚ) (hpos : ∀ z, 0 < e z) (row : List ℚ)
    (hne : row ≠ []) : (softmaxRow e row).sum = 1 := by
  have hS : 0 < (row.map e).sum := by
    refine List.sum_pos _ ?_ ?_
    · intro y hy
      obtain ⟨z, _, hz⟩ := List.mem_map.mp hy
      rw [← hz]
      exact hpos z
    · intro hmap
      exact hne (List.map_eq_nil_iff.mp hmap)
  unfold softmaxRow
  have hcomp : row.map (fun z => e z / (row.map e).sum)
      = (row.map e).map (fun y => y / (row.map e).sum) := by
    rw [List.map_map]
    rfl
  rw [hcomp, list_sum_div]
  exact div_self (ne_of_gt hS)

end NetworkLemmas

/-- C6: the discrete action layer's forward pass yields exactly one tensor
per branch, each row of branch `k` has that branch's action count as its
width, the projection's output width is the sum of the branch sizes, and
when `is_logits` is false every row of every branch sums to `1` (independent
per-branch softmax). Hypotheses: the exponential map is positive (true of
`exp`) and every branch's action count is positive. -/
theorem discreteActionLayer_forward_split_softmax
    (in_features : Nat) (sizes : List Nat) (is_logits : Bool)
    (w : Nat → Nat → ℚ) (b : Nat → ℚ) (e : ℚ → ℚ) (x : List (List ℚ))
    (hpos : ∀ z, 0 < e z) (hsz : ∀ n ∈ sizes, 0 < n) :
    ((DiscreteActionLayer.init in_features (Sum.inr sizes) is_logits w b).forward e x).length
      = sizes.length ∧
    (DiscreteActionLayer.init in_features (Sum.inr sizes) is_logits w b).weight.length
      = sizes.sum ∧
    (∀ k, k < sizes.length →
      ∀ row ∈ ((DiscreteActionLayer.init in_features (Sum.inr sizes) is_logits w b).forward
        e x).getD k [], row.length = sizes.getD k 0) ∧
    (is_logits = false →
      ∀ branch ∈ (DiscreteActionLayer.init in_features (Sum.inr sizes) is_logits w b).forward
        e x, ∀ row ∈ branch, row.sum = 1) := by
  set L := DiscreteActionLayer.init in_features (Sum.inr sizes) is_logits w b with hL
  have hLnda : L.num_discrete_actions = sizes := rfl
  have hLw : L.weight = mk_weight sizes.sum in_features w := rfl
  have hLb : L.bias = mk_bias sizes.sum b := rfl
  have hLlog : L.is_logits = is_logits := rfl
  have hout : ∀ r : List ℚ, (linear_row L.weight L.bias r).length = sizes.sum := by
    intro r
    rw [hLw, hLb, linear_row_length _ _ _ (by rw [mk_weight_length, mk_bias_length]),
      mk_weight_length]
  have hseg : ∀ (r : List ℚ) (k : Nat), k < sizes.length →
      ((splitSizes L.num_discrete_actions (linear_row L.weight L.bias r)).getD k []).length
        = sizes.getD k 0 := by
    intro r k hk
    rw [hLnda]
    exact splitSizes_getD_length sizes _ (hout r) k hk
  refine ⟨?_, ?_, ?_, ?_⟩
  · unfold DiscreteActionLayer.forward
    rw [List.length_map, List.length_range, hLnda]
  · rw [hLw, mk_weight_length]
  · intro k hk row hrow
    unfold DiscreteActionLayer.forward at hrow
    rw [hLnda] at hrow
    rw [List.getD_eq_getElem?_getD, List.getElem?_map, List.getElem?_range hk] at hrow
    simp only [Option.map_some, Option.getD_some] at hrow
    obtain ⟨r, _, hr⟩ := List.mem_map.mp hrow
    rw [← hr]
    by_cases hl : L.is_logits = true
    · rw [if_pos hl]
      exact hseg r k hk
    · rw [if_neg hl, softmaxRow_length]
      exact hseg r k hk
  · intro hlog branch hbranch row hrow
    unfold DiscreteActionLayer.forward at hbranch
    obtain ⟨k, hkmem, hkeq⟩ := List.mem_map.mp hbranch
    have hk : k < sizes.length := by
      rw [hLnda] at hkmem
      exact List.mem_range.mp hkmem
    rw [← hkeq] at hrow
    obtain ⟨r, _, hr⟩ := List.mem_map.mp hrow
    rw [hLlog, hlog] at hr
    simp only [if_false, Bool.false_eq_true] at hr
    rw [← hr]
    refine softmaxRow_sum e hpos _ ?_
    intro hnil
    have hlen0 : ((splitSizes L.num_discrete_actions
        (linear_row L.weight L.bias r)).getD k []).length = 0 := by
      rw [hnil]
      rfl
    have hgd : sizes.getD k 0 = sizes[k] := by
      rw [List.getD_eq_getElem?_getD, List.getElem?_eq_getElem hk]
      rfl
    have hposk := hsz sizes[k] (List.getElem_mem hk)
    rw [hseg r k hk, hgd] at hlen0
    omega

/-- Witness for C6 at branch sizes `[2, 3]`, probabilities mode, the
constant-one exponential stand-in and a one-row batch. -/
theorem discreteActionLayer_forward_split_softmax_witness :
    (((DiscreteActionLayer.init 4 (Sum.inr [2, 3]) false
        (fun _ _ => 1) (fun _ => 0)).forward (fun _ => 1) [[1, 2, 3, 4]]).length = 2) ∧
    ((DiscreteActionLayer.init 4 (Sum.inr [2, 3]) false
        (fun _ _ => 1) (fun _ => 0)).weight.length = 5) ∧
    (∀ k, k < 2 →
      ∀ row ∈ ((DiscreteActionLayer.init 4 (Sum.inr [2, 3]) false
        (fun _ _ => 1) (fun _ => 0)).forward (fun _ => 1) [[1, 2, 3, 4]]).getD k [],
        row.length = [2, 3].getD k 0) ∧
    (false = false →
      ∀ branch ∈ (DiscreteActionLayer.init 4 (Sum.inr [2, 3]) false
        (fun _ _ => 1) (fun _ => 0)).forward (fun _ => 1) [[1, 2, 3, 4]],
        ∀ row ∈ branch, row.sum = 1) := by
  have h := discreteActionLayer_forward_split_softmax 4 [2, 3] false
    (fun _ _ => 1) (fun _ => 0) (fun _ => 1) [[1, 2, 3, 4]]
    (fun _ => one_pos) (by intro n hn; fin_cases hn <;> decide)
  exact ⟨h.1, h.2.1, h.2.2.1, h.2.2.2⟩

/-- The flat effect on one output row of `torch.reshape(out, (-1, n, 2))`,
`torch.abs_(out[..., 1])`, `torch.reshape(out, (-1, n * 2))`: absolute value
applied in place at every odd position — the std slot of each
`(mean, std)` pair. -/
def absOdd : List ℚ → List ℚ
  | [] => []
  | [a] => [a]
  | a :: b :: rest => a :: |b| :: absOdd rest

/-- State of `GaussianContinuousActionLayer` (`network.py`): the branch
count and the single `nn.Linear(in_features, num_continuous_actions * 2)`. -/
structure GaussianContinuousActionLayer where
  num_continuous_actions : Nat
  weight : List (List ℚ)
  bias : List ℚ
deriving DecidableEq, Repr

/-- `GaussianContinuousActionLayer.__init__`. -/
def GaussianContinuousActionLayer.init (in_features num_continuous_actions : Nat)
    (w : Nat → Nat → ℚ) (b : Nat → ℚ) : GaussianContinuousActionLayer :=
  { num_continuous_actions := num_continuous_actions
    weight := mk_weight (num_continuous_actions * 2) in_features w
    bias := mk_bias (num_continuous_actions * 2) b }

/-- `GaussianContinuousActionLayer.forward`: the projection applied to every
input row, the reshape/`abs_`/reshape sequence (`absOdd` on the flat row),
then `torch.split(out, 2, dim=1)` into the per-branch `(mean, std)` pairs
handed to `PolicyDistributionParameter.create(continuous_pdparams=...)`. -/
def GaussianContinuousActionLayer.forward (L : GaussianContinuousActionLayer)
    (x : List (List ℚ)) : List (List (List ℚ)) :=
  (List.range L.num_continuous_actions).map (fun bIdx =>
    x.map (fun r =>
      (splitSizes (List.replicate L.num_continuous_actions 2)
        (absOdd (linear_row L.weight L.bias r))).getD bIdx []))

lemma absOdd_length : ∀ xs : List ℚ, (absOdd xs).length = xs.length
  | [] => rfl
  | [_] => rfl
  | a :: b :: rest => by
    show (a :: |b| :: absOdd rest).length = (a :: b :: rest).length
    simp [absOdd_length rest]

/-- Each chunk produced by splitting an odd-absoluted row of even length
into pairs is a `(mean, |std|)` pair. -/
lemma splitSizes_replicate_two (n : Nat) : ∀ xs : List ℚ, xs.length = 2 * n →
    ∀ k, k < n → ∃ m v : ℚ,
      (splitSizes (List.replicate n 2) (absOdd xs)).getD k [] = [m, |v|] := by
  induction n with
  | zero =>
    intro xs _ k hk
    exact absurd hk (by omega)
  | succ n ih =>
    intro xs h k hk
    match xs with
    | [] => simp at h
    | [a] =>
      simp only [List.length_singleton] at h
      omega
    | a :: b :: rest =>
      have hrest : rest.length = 2 * n := by
        simp only [List.length_cons] at h
        omega
      cases k with
      | zero => exact ⟨a, b, rfl⟩
      | succ k =>
        obtain ⟨m, v, hmv⟩ := ih rest hrest k (by omega)
        refine ⟨m, v, ?_⟩
        show (splitSizes (List.replicate n 2) (absOdd rest)).getD k [] = [m, |v|]
        exact hmv

/-- C7: the continuous action layer's projection has width
`num_continuous_actions * 2`, its forward pass yields one `(mean, std)` pair
sequence per branch, and every returned pair has a non-negative std
component (the in-place absolute value). -/
theorem gaussianContinuousActionLayer_std_nonneg
    (in_features n : Nat) (w : Nat → Nat → ℚ) (b : Nat → ℚ) (x : List (List ℚ)) :
    ((GaussianContinuousActionLayer.init in_features n w b).forward x).length = n ∧
    (GaussianContinuousActionLayer.init in_features n w b).weight.length = n * 2 ∧
    ∀ branch ∈ (GaussianContinuousActionLayer.init in_features n w b).forward x,
      ∀ row ∈ branch, row.length = 2 ∧ 0 ≤ row.getD 1 0 := by
  set L := GaussianContinuousActionLayer.init in_features n w b with hL
  have hLn : L.num_continuous_actions = n := rfl
  have hLw : L.weight = mk_weight (n * 2) in_features w := rfl
  have hLb : L.bias = mk_bias (n * 2) b := rfl
  have hout : ∀ r : List ℚ, (absOdd (linear_row L.weight L.bias r)).length = 2 * n := by
    intro r
    rw [absOdd_length, hLw, hLb,
      linear_row_length _ _ _ (by rw [mk_weight_length, mk_bias_length]),
      mk_weight_length]
    omega
  refine ⟨?_, ?_, ?_⟩
  · unfold GaussianContinuousActionLayer.forward
    rw [List.length_map, List.length_range, hLn]
  · rw [hLw, mk_weight_length]
  · intro branch hbranch row hrow
    unfold GaussianContinuousActionLayer.forward at hbranch
    obtain ⟨k, hkmem, hkeq⟩ := List.mem_map.mp hbranch
    have hk : k < n := by
      rw [hLn] at hkmem
      exact List.mem_range.mp hkmem
    rw [← hkeq] at hrow
    obtain ⟨r, _, hr⟩ := List.mem_map.mp hrow
    obtain ⟨m, v, hmv⟩ :=
      splitSizes_replicate_two n (linear_row L.weight L.bias r)
        (by
          have := hout r
          rw [absOdd_length] at this
          exact this) k hk
    rw [hLn] at hr
    rw [← hr, hmv]
    exact ⟨rfl, abs_nonneg v⟩

/-- C10: constructing the discrete action layer from a plain integer action
count `n` yields the very same layer as constructing it from the one-element
tuple `(n,)` — hence the same total projection width — and the two layers'
forward passes agree on every input. -/
theorem discreteActionLayer_int_normalizes_to_tuple
    (in_features n : Nat) (is_logits : Bool) (w : Nat → Nat → ℚ) (b : Nat → ℚ) :
    DiscreteActionLayer.init in_features (Sum.inl n) is_logits w b
      = DiscreteActionLayer.init in_features (Sum.inr [n]) is_logits w b ∧
    (DiscreteActionLayer.init in_features (Sum.inl n) is_logits w b).total_num_discrete_actions
      = (DiscreteActionLayer.init in_features
          (Sum.inr [n]) is_logits w b).total_num_discrete_actions ∧
    ∀ (e : ℚ → ℚ) (x : List (List ℚ)),
      (DiscreteActionLayer.init in_features (Sum.inl n) is_logits w b).forward e x
        = (DiscreteActionLayer.init in_features (Sum.inr [n]) is_logits w b).forward e x :=
  ⟨rfl, rfl, fun _ _ => rfl⟩

/-- Witness for C7: two branches, three input features, a negative bias so
the absolute value is exercised. -/
theorem gaussianContinuousActionLayer_std_nonneg_witness :
    ((GaussianContinuousActionLayer.init 3 2 (fun _ _ => 1) (fun _ => -1)).forward
      [[1, 0, 2]]).length = 2 ∧
    (GaussianContinuousActionLayer.init 3 2 (fun _ _ => 1) (fun _ => -1)).weight.length
      = 2 * 2 ∧
    ∀ branch ∈ (GaussianContinuousActionLayer.init 3 2 (fun _ _ => 1) (fun _ => -1)).forward
      [[1, 0, 2]], ∀ row ∈ branch, row.length = 2 ∧ 0 ≤ row.getD 1 0 :=
  gaussianContinuousActionLayer_std_nonneg 3 2 (fun _ _ => 1) (fun _ => -1) [[1, 0, 2]]
